import Mathlib

/-!
Verification of the AI News Summarizer pipeline (`main.py`).

The pure text-processing core of the pipeline is embedded shallowly:
Python strings become `List Char` (wrapped in `String` at the interface),
Python `re` operations on the concrete patterns used by the code become
explicit executable functions, and the two external services (news backend,
LLM backend) become explicit parameters (a response record, resp. an
`Option String` that is `none` when the backend call raises).
-/

namespace NewsSummarizer

/-! ### Characters and Python-style primitives -/

/-- Word character in the sense of the regex `\w` (restricted to the ASCII
alphanumerics plus underscore, the fragment exercised by the code). -/
def isWordChar (c : Char) : Bool :=
  c.isAlphanum || c = '_'

/-- `isWordChar` lifted to an optional character; a missing character
(string boundary) is not a word character. -/
def isWordOpt : Option Char → Bool
  | none => false
  | some c => isWordChar c

/-- Python `str.strip()`: drop whitespace from both ends. -/
def trimList (l : List Char) : List Char :=
  ((l.dropWhile Char.isWhitespace).reverse.dropWhile Char.isWhitespace).reverse

/-- Accumulator-style helper for `splitWS`. -/
def splitWSAux : List Char → List Char → List (List Char)
  | acc, [] => if acc = [] then [] else [acc.reverse]
  | acc, c :: rest =>
    if c.isWhitespace then
      if acc = [] then splitWSAux [] rest
      else acc.reverse :: splitWSAux [] rest
    else splitWSAux (c :: acc) rest

/-- Python `str.split()` with no argument: split on runs of whitespace,
dropping empty pieces. -/
def splitWS (l : List Char) : List (List Char) :=
  splitWSAux [] l

/-- Python substring containment `needle in hay`. -/
def containsSub : List Char → List Char → Bool
  | hay, needle =>
    needle.isPrefixOf hay ||
      match hay with
      | [] => false
      | _ :: t => containsSub t needle

/-- The part of `hay` strictly before the first occurrence of `sep`
(`hay.split(sep)[0]` in Python); all of `hay` when `sep` does not occur. -/
def beforeFirst (sep : List Char) : List Char → List Char
  | [] => []
  | c :: rest =>
    if sep.isPrefixOf (c :: rest) then []
    else c :: beforeFirst sep rest

/-- The part of `hay` strictly after the first occurrence of `sep`
(empty when `sep` does not occur; only used under a containment guard,
mirroring the guarded `split(sep)[1]` accesses in the code). -/
def afterFirst (sep : List Char) : List Char → List Char
  | [] => []
  | c :: rest =>
    if sep.isPrefixOf (c :: rest) then (c :: rest).drop sep.length
    else afterFirst sep rest

/-- Python `hay.split(sep)[1]`: the text after the first occurrence of
`sep` and before the next occurrence (Python `split` scans left to right,
so the next occurrence is the first one in the remaining text). -/
def splitSecond (sep hay : List Char) : List Char :=
  beforeFirst sep (afterFirst sep hay)

/-- Accumulator-style helper for `splitComma`. -/
def splitCommaAux : List Char → List Char → List (List Char)
  | acc, [] => [acc.reverse]
  | acc, c :: rest =>
    if c = ',' then acc.reverse :: splitCommaAux [] rest
    else splitCommaAux (c :: acc) rest

/-- Python `str.split(',')`: split on every comma, keeping empty pieces. -/
def splitComma (l : List Char) : List (List Char) :=
  splitCommaAux [] l

/-! ### Word-boundary search (`re.search(rf"\b{re.escape(word)}\b", text)`)

`re.escape` makes the keyword a literal, so the pattern is: the literal
word with a `\b` word-boundary assertion on each side.  A `\b` holds at a
position where exactly one of the two adjacent characters is a word
character (a missing character at either end counts as non-word). -/

/-- Does `\b w \b` match exactly at the start of `s`, where `prev` is the
character immediately preceding this position (`none` at string start)? -/
def wbHere (prev : Option Char) (w s : List Char) : Bool :=
  match w with
  | [] => !(isWordOpt prev == isWordOpt s.head?)
  | c :: cs =>
    (c :: cs).isPrefixOf s
      && (isWordOpt prev != isWordChar c)
      && (isWordOpt (c :: cs).getLast? != isWordOpt ((s.drop (c :: cs).length).head?))

/-- `re.search` for the pattern `\b w \b`: try the match at every position
of `s`, threading the preceding character for the boundary test. -/
def reSearchB (w : List Char) : Option Char → List Char → Bool
  | prev, [] => wbHere prev w []
  | prev, c :: rest => wbHere prev w (c :: rest) || reSearchB w (some c) rest

/-! ### Articles and the relevance filter (`is_relevant`, main.py:37-40) -/

/-- The article record built by `get_news` (main.py:59-66); fields missing
from the backend payload default to the empty string, so every field is a
plain string here. -/
structure Article where
  title : String
  description : String
  content : String
  source : String
  publishedAt : String
  url : String
deriving DecidableEq, Repr

/-- `combined_text` of `is_relevant` (main.py:38): title, description and
content joined by single spaces, lower-cased. -/
def combinedLower (a : Article) : List Char :=
  ((a.title ++ " " ++ a.description ++ " " ++ a.content).toList).map Char.toLower

/-- `topic.lower().split()` (main.py:39). -/
def topicKeywords (topic : String) : List (List Char) :=
  splitWS (topic.toList.map Char.toLower)

/-- `is_relevant` (main.py:37-40): every whitespace-split keyword of the
lower-cased topic must match with word boundaries somewhere in the
lower-cased combined text. -/
def is_relevant (article : Article) (topic : String) : Bool :=
  (topicKeywords topic).all fun w => reSearchB w none (combinedLower article)

/-- The news-backend response consumed by `get_news`: a status flag and a
list of article records (only the six fields the code reads are modelled;
they are copied verbatim into the result records). -/
structure NewsResponse where
  status : String
  articles : List Article
deriving Repr

/-- `get_news` (main.py:43-67): on an `ok` status keep the relevant
articles (in order), otherwise keep nothing; finally truncate to 5. -/
def get_news (topic : String) (response : NewsResponse) : List Article :=
  (if response.status = "ok"
    then response.articles.filter (fun a => is_relevant a topic)
    else []).take 5

/-! ### `combine_and_trim_description` (main.py:261-272)

The first line removes every occurrence of the regex
`‚Ä¶ \[\+\d+ chars\]` from the content.  The literal prefix consists of
the three characters U+201A, U+00C4, U+00B6 (the source file stores the
news API's `…` truncation-marker prefix in this mojibake form), a space,
`[+`, one or more digits, and ` chars]`. -/

/-- Try to match `‚Ä¶ \[\+\d+ chars\]` at the start of `s`; on success
return the remainder of the string after the match. -/
def matchMarker (s : List Char) : Option (List Char) :=
  match s with
  | c1 :: c2 :: c3 :: ' ' :: '[' :: '+' :: rest =>
    if c1 = Char.ofNat 0x201A ∧ c2 = Char.ofNat 0xC4 ∧ c3 = Char.ofNat 0xB6 then
      let ds := rest.takeWhile Char.isDigit
      if ds.isEmpty then none
      else
        match rest.drop ds.length with
        | ' ' :: 'c' :: 'h' :: 'a' :: 'r' :: 's' :: ']' :: rest2 => some rest2
        | _ => none
    else none
  | _ => none

/-- Fuel-indexed scan for `subMarker`; the fuel is an upper bound on the
remaining length, so the `0` case is never reached when starting from
`s.length` (each step strictly shortens the list). -/
def subMarkerAux : Nat → List Char → List Char
  | 0, s => s
  | _ + 1, [] => []
  | fuel + 1, c :: rest =>
    match matchMarker (c :: rest) with
    | some rem => subMarkerAux fuel rem
    | none => c :: subMarkerAux fuel rest

/-- `re.sub(r'‚Ä¶ \[\+\d+ chars\]', '', content)` (main.py:262): delete
every (leftmost, non-overlapping) occurrence of the marker. -/
def subMarker (s : List Char) : List Char :=
  subMarkerAux s.length s

/-- The character class kept by `re.sub(r'[^a-zA-Z0-9\s.,!?]', '', ...)`
(main.py:265). -/
def keepChar (c : Char) : Bool :=
  c.isAlphanum || c.isWhitespace || c = '.' || c = ',' || c = '!' || c = '?'

/-- `combined[:last_sentence_end + 1]` where `last_sentence_end` is
`combined.rfind('.')`: the prefix through the last `'.'` (meaningful when
a `'.'` is present, which is how the code guards it). -/
def cutAtLastDot (l : List Char) : List Char :=
  (l.reverse.dropWhile (fun c => !(c = '.'))).reverse

/-- Python `str.rstrip('.')`: drop trailing periods. -/
def rstripDots (l : List Char) : List Char :=
  (l.reverse.dropWhile (fun c => c = '.')).reverse

/-- `f"{description.strip()} {content.strip()}".strip()` (main.py:264)
applied after the marker removal on content (main.py:262-263). -/
def ctdCombined (description content : String) : List Char :=
  trimList (trimList description.toList ++ ' ' :: trimList (subMarker content.toList))

/-- The 700-character window (main.py:265-266): restrict to the kept
character class, then hard-truncate to 700 characters. -/
def ctdWindow (description content : String) : List Char :=
  ((ctdCombined description content).filter keepChar).take 700

/-- Body of `combine_and_trim_description` (main.py:261-272) on character
lists: cut back to the last sentence end when one exists, otherwise strip
trailing periods and append one; finally strip whitespace. -/
def combineTrimList (description content : String) : List Char :=
  let window := ctdWindow description content
  trimList (if window.contains '.' then cutAtLastDot window
            else rstripDots window ++ ['.'])

/-- `combine_and_trim_description` (main.py:261-272). -/
def combine_and_trim_description (description content : String) : String :=
  String.mk (combineTrimList description content)

/-! ### `format_date` (main.py:254-259) -/

/-- `iso_date.replace("Z", "+00:00")` (main.py:256). -/
def replaceZ : List Char → List Char
  | [] => []
  | c :: rest =>
    if c = 'Z' then '+' :: '0' :: '0' :: ':' :: '0' :: '0' :: replaceZ rest
    else c :: replaceZ rest

/-- Read exactly `n` decimal digits from the front of `l`. -/
def readDigits (n : Nat) (l : List Char) : Option (Nat × List Char) :=
  let ds := l.take n
  if ds.length = n ∧ ds.all Char.isDigit then
    some (ds.foldl (fun acc c => acc * 10 + (c.toNat - '0'.toNat)) 0, l.drop n)
  else none

/-- Gregorian leap year, as `datetime` validates it. -/
def isLeap (y : Nat) : Bool :=
  (y % 4 = 0 && !(y % 100 = 0)) || y % 400 = 0

/-- Days in a month, as `datetime` validates day-of-month. -/
def daysInMonth (y m : Nat) : Nat :=
  if m = 2 then (if isLeap y then 29 else 28)
  else if m = 4 ∨ m = 6 ∨ m = 9 ∨ m = 11 then 30
  else 31

/-- The datetime fields `strftime` reads (the parsed offset does not shift
them; it is only validated). -/
structure PyDateTime where
  year : Nat
  month : Nat
  day : Nat
  hour : Nat
  minute : Nat
  second : Nat
deriving DecidableEq, Repr

/-- Parse `HH[:MM[:SS[.fff | .ffffff]]]`, the time part accepted by
`datetime.fromisoformat`; returns the fields and the rest of the input. -/
def parseTimePart (l : List Char) : Option (Nat × Nat × Nat × List Char) :=
  match readDigits 2 l with
  | none => none
  | some (h, rest1) =>
    match rest1 with
    | ':' :: rest2 =>
      match readDigits 2 rest2 with
      | none => none
      | some (mi, rest3) =>
        match rest3 with
        | ':' :: rest4 =>
          match readDigits 2 rest4 with
          | none => none
          | some (s, rest5) =>
            match rest5 with
            | '.' :: rest6 =>
              let ds := rest6.takeWhile Char.isDigit
              if ds.length = 3 ∨ ds.length = 6 then some (h, mi, s, rest6.drop ds.length)
              else none
            | _ => some (h, mi, s, rest5)
        | _ => some (h, mi, 0, rest3)
    | _ => some (h, 0, 0, rest1)

/-- Validate a trailing UTC offset `±HH:MM[:SS]` (empty input means no
offset); `fromisoformat` only checks it, `strftime` does not use it. -/
def parseOffset (l : List Char) : Bool :=
  match l with
  | [] => true
  | sign :: rest =>
    (sign = '+' || sign = '-') &&
      match readDigits 2 rest with
      | some (oh, ':' :: r2) =>
        (match readDigits 2 r2 with
         | some (om, r3) =>
           (r3 = [] ||
             (match r3 with
              | ':' :: r4 =>
                (match readDigits 2 r4 with
                 | some (os, r5) => r5 = [] && os < 60
                 | none => false)
              | _ => false)) && oh < 24 && om < 60
         | none => false)
      | _ => false

/-- `datetime.fromisoformat` on `YYYY-MM-DD[<sep>HH[:MM[:SS[.f]]]][±HH:MM]`
with field validation; `none` models the `ValueError` caught at
main.py:258. -/
def fromisoformat (l : List Char) : Option PyDateTime :=
  match readDigits 4 l with
  | some (y, '-' :: r1) =>
    (match readDigits 2 r1 with
     | some (mo, '-' :: r2) =>
       (match readDigits 2 r2 with
        | some (d, r3) =>
          let core : Option (Nat × Nat × Nat × List Char) :=
            match r3 with
            | [] => some (0, 0, 0, [])
            | _ :: r4 => parseTimePart r4
          (match core with
           | some (h, mi, s, rest) =>
             if 1 ≤ y ∧ 1 ≤ mo ∧ mo ≤ 12 ∧ 1 ≤ d ∧ d ≤ daysInMonth y mo ∧
                 h ≤ 23 ∧ mi ≤ 59 ∧ s ≤ 59 ∧ parseOffset rest = true then
               some ⟨y, mo, d, h, mi, s⟩
             else none
           | none => none)
        | _ => none)
     | _ => none)
  | _ => none

/-- `%B`: full month name. -/
def monthName : Nat → String
  | 1 => "January"
  | 2 => "February"
  | 3 => "March"
  | 4 => "April"
  | 5 => "May"
  | 6 => "June"
  | 7 => "July"
  | 8 => "August"
  | 9 => "September"
  | 10 => "October"
  | 11 => "November"
  | 12 => "December"
  | _ => ""

/-- Zero-pad a number to two digits (`%d`, `%I`, `%M`). -/
def pad2 (n : Nat) : String :=
  if n < 10 then "0" ++ toString n else toString n

/-- Zero-pad a year to four digits (`%Y`). -/
def pad4 (n : Nat) : String :=
  if n < 10 then "000" ++ toString n
  else if n < 100 then "00" ++ toString n
  else if n < 1000 then "0" ++ toString n
  else toString n

/-- `dt.strftime("%B %d, %Y at %I:%M %p")` (main.py:257). -/
def strftimeReport (dt : PyDateTime) : String :=
  monthName dt.month ++ " " ++ pad2 dt.day ++ ", " ++ pad4 dt.year ++ " at " ++
    pad2 (if dt.hour % 12 = 0 then 12 else dt.hour % 12) ++ ":" ++ pad2 dt.minute ++ " " ++
    (if dt.hour < 12 then "AM" else "PM")

/-- `format_date` (main.py:254-259): parse the ISO timestamp (after the
`Z` replacement) and reformat it; on failure return the input unchanged. -/
def format_date (iso_date : String) : String :=
  match fromisoformat (replaceZ iso_date.toList) with
  | some dt => strftimeReport dt
  | none => iso_date

/-! ### `summarize_article_tool` (main.py:70-128)

The LLM call `chain.run(...)` is external; its outcome is modelled as an
`Option String`: `some result` is the free-form response text, `none`
models an exception raised by the call (the only raising operation inside
the `try` block, since every indexing into a `split` is guarded by a
containment test).  The response parsing (main.py:90-120) is embedded in
full, including the two trailing-tag regex cleanup passes. -/

/-- `clean` (main.py:73): drop every character outside `\w`, whitespace
and `.,!?`. -/
def cleanField (x : String) : String :=
  String.mk (x.toList.filter fun c => isWordChar c || c.isWhitespace ||
    c = '.' || c = ',' || c = '!' || c = '?')

/-- `truncated_text` (main.py:74-75): the cleaned fields joined by `". "`,
stripped, truncated to 1500 characters — the text sent to the LLM. -/
def truncated_text (title description content : String) : String :=
  String.mk ((trimList (cleanField title ++ ". " ++ cleanField description ++ ". " ++
    cleanField content).toList).take 1500)

/-- Match of the trailing `.*$` part of the cleanup regexes at `rest`
(no `re.MULTILINE`: `.` excludes `'\n'` and `$` holds at the end of the
string or just before a terminal newline).  Returns the unconsumed
remainder on success: everything up to the end, except possibly a final
newline. -/
def dotStarEnd (rest : List Char) : Option (List Char) :=
  if !(rest.contains '\n') then some []
  else if rest.getLast? = some '\n' && !(rest.dropLast.contains '\n') then some ['\n']
  else none

/-- Match of `\s*Tags?:\s*.*$` (case-insensitive) at the start of `s`:
maximal whitespace, the literal `tag` in any case, an optional `s`, a
colon, more whitespace, then the rest of the line up to the string end. -/
def tryMatch1 (s : List Char) : Option (List Char) :=
  match s.dropWhile Char.isWhitespace with
  | t :: a :: g :: rest =>
    if (t = 'T' || t = 't') && (a = 'A' || a = 'a') && (g = 'G' || g = 'g') then
      let afterColon : Option (List Char) :=
        match rest with
        | x :: y :: r2 =>
          if (x = 'S' || x = 's') && y = ':' then some r2
          else if x = ':' then some (y :: r2)
          else none
        | x :: [] => if x = ':' then some [] else none
        | [] => none
      match afterColon with
      | some r => dotStarEnd (r.dropWhile Char.isWhitespace)
      | none => none
    else none
  | _ => none

/-- Fuel-indexed scan for `sub1` (fuel bounds the remaining length, so
starting from `s.length` the `0` case is never reached). -/
def sub1Aux : Nat → List Char → List Char
  | 0, s => s
  | _ + 1, [] => []
  | fuel + 1, c :: rest =>
    match tryMatch1 (c :: rest) with
    | some rem => sub1Aux fuel rem
    | none => c :: sub1Aux fuel rest

/-- `re.sub(r'\s*Tags?:\s*.*$', '', summary, flags=re.IGNORECASE)`
(main.py:109). -/
def sub1 (s : List Char) : List Char :=
  sub1Aux s.length s

/-- Match of `\s*\bTags?\b.*$` (case-insensitive) at the start of `s`,
where `prev` is the character just before this position (for the first
`\b`).  The left boundary holds automatically after consumed whitespace;
the right boundary forces the greedy `s?` choice. -/
def tryMatch2 (prev : Option Char) (s : List Char) : Option (List Char) :=
  let ws := s.takeWhile Char.isWhitespace
  match s.dropWhile Char.isWhitespace with
  | t :: a :: g :: rest =>
    if (t = 'T' || t = 't') && (a = 'A' || a = 'a') && (g = 'G' || g = 'g')
        && (!ws.isEmpty || !isWordOpt prev) then
      match rest with
      | x :: r2 =>
        if x = 'S' || x = 's' then
          if !isWordOpt r2.head? then dotStarEnd r2 else none
        else if !isWordChar x then dotStarEnd (x :: r2)
        else none
      | [] => dotStarEnd []
    else none
  | _ => none

/-- Fuel-indexed scan for `sub2`, threading the character preceding the
current position (word boundaries look at the original neighbours). -/
def sub2Aux : Nat → Option Char → List Char → List Char
  | 0, _, s => s
  | _ + 1, _, [] => []
  | fuel + 1, prev, c :: rest =>
    match tryMatch2 prev (c :: rest) with
    | some rem =>
      let consumed := (c :: rest).take ((c :: rest).length - rem.length)
      sub2Aux fuel (consumed.getLast? <|> prev) rem
    | none => c :: sub2Aux fuel (some c) rest

/-- `re.sub(r'\s*\bTags?\b.*$', '', summary, flags=re.IGNORECASE)`
(main.py:110). -/
def sub2 (s : List Char) : List Char :=
  sub2Aux s.length none s

/-- The record returned by `summarize_article_tool` (main.py:128). -/
structure SummaryOut where
  headline : String
  summary : String
  tags : List String
deriving DecidableEq, Repr

/-- Headline extraction (main.py:91-94); `result.split(m)[1]` is the text
between the first and second occurrence of `m`. -/
def parseHeadline (rl : List Char) : List Char :=
  if containsSub rl "Headline:".toList && containsSub rl "Summary:".toList then
    trimList (beforeFirst "Summary:".toList (splitSecond "Headline:".toList rl))
  else "Headline unavailable".toList

/-- Summary extraction (main.py:97-103). -/
def parseSummaryExtract (rl : List Char) : List Char :=
  if containsSub rl "Summary:".toList then
    if containsSub rl "Tag:".toList then
      trimList (beforeFirst "Tag:".toList (splitSecond "Summary:".toList rl))
    else trimList (splitSecond "Summary:".toList rl)
  else "Summary unavailable".toList

/-- Summary cleanup (main.py:105-110): cut at a literal `"Tags:"`, then
the two case-insensitive trailing-tag regex passes. -/
def parseSummary (rl : List Char) : List Char :=
  let summary0 := parseSummaryExtract rl
  let summary1 :=
    if containsSub summary0 "Tags:".toList then trimList (beforeFirst "Tags:".toList summary0)
    else summary0
  sub2 (sub1 summary1)

/-- Tags extraction (main.py:114-120): split the text after `"Tags:"` on
commas, strip entries, drop empties, cap at 3; default `["General"]`. -/
def parseTags (rl : List Char) : List (List Char) :=
  if containsSub rl "Tags:".toList then
    (((splitComma (trimList (splitSecond "Tags:".toList rl))).map trimList).filter
      (fun t => !t.isEmpty)).take 3
  else ["General".toList]

/-- The response parsing of the `try` block (main.py:90-120), as a
function of the response text. -/
def parse_llm_result (result : String) : SummaryOut :=
  ⟨String.mk (parseHeadline result.toList), String.mk (parseSummary result.toList),
    (parseTags result.toList).map String.mk⟩

/-- `summarize_article_tool` (main.py:70-128).  The three text fields only
shape the prompt (`truncated_text`); the returned record is a function of
the LLM outcome: parse the response on success, return the fixed fallback
triple when the call raises (main.py:122-126). -/
def summarize_article_tool (title description content : String)
    (response : Option String) : SummaryOut :=
  let _prompt := truncated_text title description content
  match response with
  | some result => parse_llm_result result
  | none =>
    { headline := "Headline unavailable"
      summary := "Summary unavailable due to content filter or formatting issue."
      tags := ["General"] }

/-! ### `summarize_node` (main.py:238-251) -/

/-- One entry of the `summaries` list (main.py:240-248): the summarizer
output plus the article's source name and formatted date. -/
structure SummaryRec where
  headline : String
  summary : String
  tags : List String
  source : String
  date : String
deriving DecidableEq, Repr

/-- Build the summary record for one article, given the LLM outcome. -/
def summaryFor (oracle : Article → Option String) (article : Article) : SummaryRec :=
  let s := summarize_article_tool article.title article.description article.content
    (oracle article)
  { headline := s.headline
    summary := s.summary
    tags := s.tags
    source := article.source
    date := format_date article.publishedAt }

/-- `summarize_node` (main.py:238-251): one summary record per article, in
order; `oracle` supplies the per-article LLM outcome. -/
def summarize_node (oracle : Article → Option String) (articles : List Article) :
    List SummaryRec :=
  articles.map (summaryFor oracle)

/-! ### The word-boundary search, characterised -/

/-- The character preceding the current position after consuming `pre`,
when `prev` preceded `pre`. -/
def lastOr (prev : Option Char) : List Char → Option Char
  | [] => prev
  | c :: rest => lastOr (some c) rest

theorem lastOr_cons (prev : Option Char) (c : Char) (pre : List Char) :
    lastOr prev (c :: pre) = lastOr (some c) pre := rfl

theorem lastOr_eq : ∀ (l : List Char) (prev : Option Char),
    lastOr prev l = if l = [] then prev else l.getLast?
  | [], prev => rfl
  | c :: rest, prev => by
    rw [lastOr_cons, lastOr_eq rest (some c)]
    cases rest with
    | nil => simp
    | cons x xs => simp [List.getLast?_cons_cons]

theorem lastOr_none (pre : List Char) : lastOr none pre = pre.getLast? := by
  rw [lastOr_eq]
  cases pre <;> simp

theorem wbHere_iff (prev : Option Char) (c : Char) (cs s : List Char) :
    wbHere prev (c :: cs) s = true ↔
      ∃ post, s = (c :: cs) ++ post
        ∧ (isWordOpt prev != isWordOpt (c :: cs).head?) = true
        ∧ (isWordOpt (c :: cs).getLast? != isWordOpt post.head?) = true := by
  simp only [wbHere, Bool.and_eq_true, List.isPrefixOf_iff_prefix]
  constructor
  · rintro ⟨⟨⟨post, rfl⟩, hbl⟩, hbr⟩
    refine ⟨post, rfl, ?_, ?_⟩
    · simpa [isWordOpt] using hbl
    · simpa [List.drop_left] using hbr
  · rintro ⟨post, rfl, hbl, hbr⟩
    refine ⟨⟨⟨post, rfl⟩, ?_⟩, ?_⟩
    · simpa [isWordOpt] using hbl
    · simpa [List.drop_left] using hbr

theorem reSearchB_iff (c0 : Char) (cs0 : List Char) (s : List Char) :
    ∀ (prev : Option Char),
      reSearchB (c0 :: cs0) prev s = true ↔
        ∃ pre post, s = pre ++ (c0 :: cs0) ++ post
          ∧ (isWordOpt (lastOr prev pre) != isWordOpt (c0 :: cs0).head?) = true
          ∧ (isWordOpt (c0 :: cs0).getLast? != isWordOpt post.head?) = true := by
  induction s with
  | nil =>
    intro prev
    constructor
    · intro h
      exfalso
      simp [reSearchB, wbHere, List.isPrefixOf_iff_prefix] at h
    · rintro ⟨pre, post, heq, -, -⟩
      exact absurd heq.symm (by simp)
  | cons c rest ih =>
    intro prev
    rw [reSearchB, Bool.or_eq_true, wbHere_iff prev c0 cs0 (c :: rest), ih (some c)]
    constructor
    · rintro (⟨post, heq, hbl, hbr⟩ | ⟨pre, post, heq, hbl, hbr⟩)
      · exact ⟨[], post, by simpa using heq, hbl, hbr⟩
      · exact ⟨c :: pre, post, by simp [heq], by rwa [lastOr_cons], hbr⟩
    · rintro ⟨pre, post, heq, hbl, hbr⟩
      cases pre with
      | nil => exact Or.inl ⟨post, by simpa using heq, hbl, hbr⟩
      | cons c' pre' =>
        obtain ⟨rfl, heq'⟩ : c = c' ∧ rest = pre' ++ (c0 :: cs0) ++ post := by
          simpa using heq
        exact Or.inr ⟨pre', post, heq', by rwa [lastOr_cons] at hbl, hbr⟩

/-- Spec-side predicate: `w` occurs somewhere in `s` as a whole word, i.e.
delimited by word boundaries (exactly one side of each boundary is a word
character; the ends of the string count as non-word). -/
def OccursWholeWord (w s : List Char) : Prop :=
  ∃ pre post, s = pre ++ w ++ post
    ∧ (isWordOpt pre.getLast? != isWordOpt w.head?) = true
    ∧ (isWordOpt w.getLast? != isWordOpt post.head?) = true

theorem splitWSAux_ne_nil : ∀ (l acc : List Char), ∀ w ∈ splitWSAux acc l, w ≠ []
  | [], acc => by
    intro w hw
    unfold splitWSAux at hw
    split at hw
    · simp at hw
    · rename_i hacc
      simp at hw
      subst hw
      simpa using hacc
  | c :: rest, acc => by
    intro w hw
    unfold splitWSAux at hw
    split at hw
    · split at hw
      · exact splitWSAux_ne_nil rest [] w hw
      · rename_i hacc
        rcases List.mem_cons.mp hw with rfl | hw'
        · simpa using hacc
        · exact splitWSAux_ne_nil rest [] w hw'
    · exact splitWSAux_ne_nil rest (c :: acc) w hw

/-- Topic keywords produced by `split()` are never empty. -/
theorem splitWS_ne_nil (l : List Char) : ∀ w ∈ splitWS l, w ≠ [] :=
  splitWSAux_ne_nil l []

theorem is_relevant_iff (a : Article) (t : String) :
    is_relevant a t = true ↔
      ∀ w ∈ topicKeywords t, OccursWholeWord w (combinedLower a) := by
  unfold is_relevant
  rw [List.all_eq_true]
  refine forall_congr' fun w => forall_congr' fun hw => ?_
  have hne : w ≠ [] := splitWS_ne_nil _ w hw
  obtain ⟨c0, cs0, rfl⟩ : ∃ c0 cs0, w = c0 :: cs0 := by
    cases w with
    | nil => exact absurd rfl hne
    | cons x xs => exact ⟨x, xs, rfl⟩
  rw [reSearchB_iff c0 cs0 (combinedLower a) none]
  unfold OccursWholeWord
  refine exists_congr fun pre => exists_congr fun post => ?_
  rw [lastOr_none]

/-! ### Claim theorems: fetching -/

/-- C1: `is_relevant(A, T)` is true iff every whitespace-split keyword of
the lower-cased topic `T` occurs as a whole word (word-boundary match)
somewhere in the lower-cased concatenation of `A`'s title, description
and content. -/
theorem C1_is_relevant_characterisation (a : Article) (t : String) :
    is_relevant a t = true ↔
      ∀ w ∈ topicKeywords t, OccursWholeWord w (combinedLower a) :=
  is_relevant_iff a t

/-- C2: for every topic and backend response, `get_news` returns at most
5 articles, and every returned article satisfies the relevance
predicate. -/
theorem C2_get_news_bounded_and_relevant (topic : String) (response : NewsResponse) :
    (get_news topic response).length ≤ 5 ∧
      ∀ a ∈ get_news topic response, is_relevant a topic = true := by
  constructor
  · exact List.length_take_le 5 _
  · intro a ha
    unfold get_news at ha
    have ha' := List.take_subset 5 _ ha
    split at ha'
    · exact (List.mem_filter.mp ha').2
    · simp at ha'

/-- C8: a topic with no whitespace-delimited keywords makes `is_relevant`
true for every article, so on an `ok` response `get_news` keeps every
fetched article (up to the cap of 5). -/
theorem C8_empty_topic_keeps_all (topic : String) (h : topicKeywords topic = []) :
    (∀ a : Article, is_relevant a topic = true) ∧
      ∀ response : NewsResponse, response.status = "ok" →
        get_news topic response = response.articles.take 5 := by
  have hrel : ∀ a : Article, is_relevant a topic = true := by
    intro a
    unfold is_relevant
    rw [h]
    rfl
  refine ⟨hrel, fun resp hok => ?_⟩
  unfold get_news
  rw [if_pos hok, List.filter_eq_self.mpr fun a _ => hrel a]

/-- Witness for C8 at the whitespace-only topic `"  "` with a concrete
one-article `ok` response. -/
theorem C8_empty_topic_keeps_all_witness :
    is_relevant ⟨"t1", "d1", "c1", "s1", "p1", "u1"⟩ "  " = true ∧
      get_news "  " ⟨"ok", [⟨"t1", "d1", "c1", "s1", "p1", "u1"⟩]⟩ =
        [⟨"t1", "d1", "c1", "s1", "p1", "u1"⟩] := by
  have h := C8_empty_topic_keeps_all "  " (by decide)
  exact ⟨h.1 _, by rw [h.2 _ rfl]; rfl⟩

/-! ### Lemmas about `combine_and_trim_description` -/

theorem dropWhile_subset (p : Char → Bool) (l : List Char) : l.dropWhile p ⊆ l :=
  (List.dropWhile_suffix p).sublist.subset

theorem trimList_subset (l : List Char) : trimList l ⊆ l := by
  intro x hx
  unfold trimList at hx
  rw [List.mem_reverse] at hx
  have hx2 := dropWhile_subset _ _ hx
  rw [List.mem_reverse] at hx2
  exact dropWhile_subset _ _ hx2

theorem trimList_length_le (l : List Char) : (trimList l).length ≤ l.length := by
  unfold trimList
  rw [List.length_reverse]
  calc ((l.dropWhile Char.isWhitespace).reverse.dropWhile Char.isWhitespace).length
      ≤ (l.dropWhile Char.isWhitespace).reverse.length :=
        (List.dropWhile_suffix Char.isWhitespace).length_le
    _ = (l.dropWhile Char.isWhitespace).length := List.length_reverse _
    _ ≤ l.length := (List.dropWhile_suffix Char.isWhitespace).length_le

theorem getLast?_dropWhile {l : List Char} {c : Char} (h : l.getLast? = some c)
    (hc : Char.isWhitespace c = false) :
    (l.dropWhile Char.isWhitespace).getLast? = some c := by
  induction l with
  | nil => simp at h
  | cons a rest ih =>
    rw [List.dropWhile_cons]
    split
    · rename_i ha
      cases rest with
      | nil =>
        simp at h
        subst h
        rw [ha] at hc
        simp at hc
      | cons b t =>
        rw [List.getLast?_cons_cons] at h
        exact ih h
    · exact h

/-- Stripping whitespace from a list that ends in a non-whitespace
character only strips on the left. -/
theorem trimList_of_getLast_not_ws {l : List Char} {c : Char} (h : l.getLast? = some c)
    (hc : Char.isWhitespace c = false) :
    trimList l = l.dropWhile Char.isWhitespace := by
  unfold trimList
  have h1 : (l.dropWhile Char.isWhitespace).getLast? = some c := getLast?_dropWhile h hc
  have h2 : (l.dropWhile Char.isWhitespace).reverse.head? = some c := by
    rw [List.head?_reverse]
    exact h1
  cases hrev : (l.dropWhile Char.isWhitespace).reverse with
  | nil =>
    have h0 : l.dropWhile Char.isWhitespace = [] := by
      simpa using congrArg List.reverse hrev
    simp [h0]
  | cons x xs =>
    have hx : x = c := by
      rw [hrev] at h2
      simpa using h2
    have hrl : List.dropWhile Char.isWhitespace l = (x :: xs).reverse := by
      rw [← hrev, List.reverse_reverse]
    have hcond : x.isWhitespace = false := by
      rw [hx]
      exact hc
    rw [List.dropWhile_cons]
    simp only [hcond, Bool.false_eq_true, if_false]
    exact hrl.symm

theorem endsDot_trim {l : List Char} (h : l.getLast? = some '.') :
    (trimList l).getLast? = some '.' ∧ trimList l ≠ [] := by
  have hc : Char.isWhitespace '.' = false := by decide
  have ht : trimList l = l.dropWhile Char.isWhitespace := trimList_of_getLast_not_ws h hc
  have h1 : (l.dropWhile Char.isWhitespace).getLast? = some '.' := getLast?_dropWhile h hc
  refine ⟨ht ▸ h1, ?_⟩
  rw [ht]
  intro hnil
  rw [hnil] at h1
  simp at h1

theorem head?_dropWhile_dot {r : List Char} (h : '.' ∈ r) :
    (r.dropWhile (fun c => !(c = '.'))).head? = some '.' := by
  induction r with
  | nil => simp at h
  | cons a t ih =>
    rw [List.dropWhile_cons]
    by_cases ha : a = '.'
    · subst ha
      simp
    · have ht : '.' ∈ t := by
        rcases List.mem_cons.mp h with h1 | h1
        · exact absurd h1.symm ha
        · exact h1
      simp only [ha, Bool.not_false, if_true]
      exact ih ht

theorem cutAtLastDot_getLast {l : List Char} (h : '.' ∈ l) :
    (cutAtLastDot l).getLast? = some '.' := by
  unfold cutAtLastDot
  rw [List.getLast?_reverse]
  exact head?_dropWhile_dot (List.mem_reverse.mpr h)

theorem cutAtLastDot_length_le (l : List Char) : (cutAtLastDot l).length ≤ l.length := by
  unfold cutAtLastDot
  rw [List.length_reverse]
  calc (l.reverse.dropWhile fun c => !(c = '.')).length
      ≤ l.reverse.length := (List.dropWhile_suffix _).length_le
    _ = l.length := List.length_reverse l

theorem cutAtLastDot_subset (l : List Char) : cutAtLastDot l ⊆ l := by
  intro x hx
  unfold cutAtLastDot at hx
  rw [List.mem_reverse] at hx
  have := dropWhile_subset _ _ hx
  rwa [List.mem_reverse] at this

theorem rstripDots_length_le (l : List Char) : (rstripDots l).length ≤ l.length := by
  unfold rstripDots
  rw [List.length_reverse]
  calc (l.reverse.dropWhile fun c => c = '.').length
      ≤ l.reverse.length := (List.dropWhile_suffix _).length_le
    _ = l.length := List.length_reverse l

theorem rstripDots_subset (l : List Char) : rstripDots l ⊆ l := by
  intro x hx
  unfold rstripDots at hx
  rw [List.mem_reverse] at hx
  have := dropWhile_subset _ _ hx
  rwa [List.mem_reverse] at this

theorem mem_contains_dot {l : List Char} (h : l.contains '.' = true) : '.' ∈ l := by
  simpa using h

/-- The returned text always ends with a period and is never empty. -/
theorem combineTrim_endsDot (d c : String) :
    (combineTrimList d c).getLast? = some '.' ∧ combineTrimList d c ≠ [] := by
  unfold combineTrimList
  cases hdot : (ctdWindow d c).contains '.' with
  | true =>
    simp only [hdot, if_true]
    exact endsDot_trim (cutAtLastDot_getLast (mem_contains_dot hdot))
  | false =>
    simp only [hdot, Bool.false_eq_true, if_false]
    exact endsDot_trim (List.getLast?_concat _)

/-- Length bounds: at most 701 in general; at most 700 when the truncated
window contains a period. -/
theorem combineTrim_length (d c : String) :
    (combineTrimList d c).length ≤ 701 ∧
      ((ctdWindow d c).contains '.' = true → (combineTrimList d c).length ≤ 700) := by
  have hw : (ctdWindow d c).length ≤ 700 := List.length_take_le 700 _
  unfold combineTrimList
  cases hdot : (ctdWindow d c).contains '.' with
  | true =>
    simp only [hdot, if_true]
    have h1 : (trimList (cutAtLastDot (ctdWindow d c))).length ≤ 700 :=
      le_trans (trimList_length_le _) (le_trans (cutAtLastDot_length_le _) hw)
    exact ⟨le_trans h1 (by omega), fun _ => h1⟩
  | false =>
    simp only [hdot, Bool.false_eq_true, if_false]
    refine ⟨?_, by simp⟩
    calc (trimList (rstripDots (ctdWindow d c) ++ ['.'])).length
        ≤ (rstripDots (ctdWindow d c) ++ ['.']).length := trimList_length_le _
      _ = (rstripDots (ctdWindow d c)).length + 1 := by simp
      _ ≤ 701 := by
          have := le_trans (rstripDots_length_le (ctdWindow d c)) hw
          omega

/-- Every output character either survived the character filter or is the
appended period. -/
theorem mem_combineTrimList {d c : String} {x : Char}
    (hx : x ∈ combineTrimList d c) : x ∈ ctdWindow d c ∨ x = '.' := by
  unfold combineTrimList at hx
  have hx1 := trimList_subset _ hx
  split at hx1
  · exact Or.inl (cutAtLastDot_subset _ hx1)
  · rcases List.mem_append.mp hx1 with h1 | h1
    · exact Or.inl (rstripDots_subset _ h1)
    · exact Or.inr (by simpa using h1)

/-! ### Claim theorems: description trimming -/

set_option maxRecDepth 100000 in
/-- C3 counterexample: on a 700-character period-free description (700
copies of `a`) with empty content, the output has 701 characters — the
no-period fallback appends a period after the 700-character truncation, so
the claimed unconditional 700 bound fails. -/
theorem C3_counterexample :
    ¬ ((combine_and_trim_description (String.mk (List.replicate 700 'a')) "").length ≤ 700) := by
  decide

/-- C3 (amended): the output of `combine_and_trim_description` has length
at most 701, and at most 700 whenever a `'.'` exists within the truncated
700-character window — in which case the output also ends with `'.'`. -/
theorem C3_trim_length_amended (d c : String) :
    (combine_and_trim_description d c).length ≤ 701 ∧
      ((ctdWindow d c).contains '.' = true →
        (combine_and_trim_description d c).length ≤ 700 ∧
          (combine_and_trim_description d c).toList.getLast? = some '.') := by
  have hlen := combineTrim_length d c
  have hdot := combineTrim_endsDot d c
  exact ⟨hlen.1, fun h => ⟨hlen.2 h, hdot.1⟩⟩

/-- Witness for the amended C3 at description `"a."`, content `""`. -/
theorem C3_trim_length_amended_witness :
    ((ctdWindow "a." "").contains '.' = true) ∧
      (combine_and_trim_description "a." "").length ≤ 700 ∧
        (combine_and_trim_description "a." "").toList.getLast? = some '.' :=
  ⟨by decide, (C3_trim_length_amended "a." "").2 (by decide)⟩

set_option maxHeartbeats 2000000 in
/-- C4: no `[+N chars]` truncation marker ever survives into the output
(`'['` is outside the kept character class), and on the spec's round-trip
article the marker is gone from the output. -/
theorem C4_marker_never_in_output :
    (∀ d c : String, '[' ∉ (combine_and_trim_description d c).toList) ∧
      combine_and_trim_description "EV sales rise" "... [+120 chars]" = "EV sales rise ..." := by
  constructor
  · intro d c hx
    have hx' : '[' ∈ combineTrimList d c := hx
    rcases mem_combineTrimList hx' with h | h
    · unfold ctdWindow at h
      have hmem := List.mem_of_mem_take h
      have hk : keepChar '[' = true := (List.mem_filter.mp hmem).2
      exact absurd hk (by decide)
    · exact absurd h (by decide)
  · decide

theorem stringMk_eq_empty {l : List Char} (h : String.mk l = "") : l = [] := by
  have h2 := congrArg String.data h
  simpa using h2

/-- C9: the output of `combine_and_trim_description` is always a non-empty
string ending in `'.'`; on empty description and content it is exactly
`"."`. -/
theorem C9_nonempty_ends_dot :
    (∀ d c : String, combine_and_trim_description d c ≠ "" ∧
        (combine_and_trim_description d c).toList.getLast? = some '.') ∧
      combine_and_trim_description "" "" = "." := by
  constructor
  · intro d c
    have h := combineTrim_endsDot d c
    refine ⟨fun he => h.2 (stringMk_eq_empty he), h.1⟩
  · decide

/-! ### Claim theorems: summarization -/

set_option maxHeartbeats 2000000 in
/-- C5 counterexample: on the response `"Headline:Summary:"` (both markers
present, nothing between or after them) the returned headline and summary
are both empty strings, refuting the claimed non-emptiness. -/
theorem C5_counterexample :
    (summarize_article_tool "" "" "" (some "Headline:Summary:")).headline = "" ∧
      (summarize_article_tool "" "" "" (some "Headline:Summary:")).summary = "" := by
  constructor
  · decide
  · decide

/-- C5 (amended): for every input triple and every model response the
returned tags list has at most 3 elements; the headline and summary fields
are strings that may be empty when the markers enclose empty text. -/
theorem C5_tags_bounded_amended (title description content : String)
    (response : Option String) :
    (summarize_article_tool title description content response).tags.length ≤ 3 := by
  cases response with
  | none => simp [summarize_article_tool]
  | some r =>
    show ((parseTags r.toList).map String.mk).length ≤ 3
    rw [List.length_map]
    unfold parseTags
    split
    · exact List.length_take_le 3 _
    · simp

set_option maxHeartbeats 1000000 in
/-- C6 counterexample: the response `"hello"` contains none of the three
markers, yet the returned summary is the short `"Summary unavailable"`,
not the claimed long fallback literal (which the code only returns when
the backend call raises). -/
theorem C6_counterexample :
    (containsSub "hello".toList "Headline:".toList = false ∧
      containsSub "hello".toList "Summary:".toList = false ∧
      containsSub "hello".toList "Tags:".toList = false) ∧
    (summarize_article_tool "" "" "" (some "hello")).summary ≠
      "Summary unavailable due to content filter or formatting issue." := by
  constructor
  · decide
  · decide

/-- C6 (amended): when the LLM response contains none of the markers
`"Headline:"`, `"Summary:"`, `"Tags:"`, the stage returns
`{headline: "Headline unavailable", summary: "Summary unavailable",
tags: ["General"]}`; the triple with the long summary literal is returned
only on a raised backend call. -/
theorem C6_no_markers_amended (title description content result : String)
    (h1 : containsSub result.toList "Headline:".toList = false)
    (h2 : containsSub result.toList "Summary:".toList = false)
    (h3 : containsSub result.toList "Tags:".toList = false) :
    summarize_article_tool title description content (some result) =
      { headline := "Headline unavailable", summary := "Summary unavailable",
        tags := ["General"] } := by
  show parse_llm_result result = _
  unfold parse_llm_result
  have hcond : (containsSub result.toList "Headline:".toList &&
      containsSub result.toList "Summary:".toList) = false := by
    rw [h1, Bool.false_and]
  have hh : parseHeadline result.toList = "Headline unavailable".toList := by
    unfold parseHeadline
    rw [hcond]
    simp
  have hs : parseSummary result.toList = "Summary unavailable".toList := by
    unfold parseSummary parseSummaryExtract
    rw [h2]
    simp only [Bool.false_eq_true, if_false]
    decide
  have ht : parseTags result.toList = ["General".toList] := by
    unfold parseTags
    rw [h3]
    simp
  rw [hh, hs, ht]
  decide

/-- Witness for the amended C6 at the marker-free response `"hello"`. -/
theorem C6_no_markers_amended_witness :
    summarize_article_tool "t" "d" "c" (some "hello") =
      { headline := "Headline unavailable", summary := "Summary unavailable",
        tags := ["General"] } :=
  C6_no_markers_amended "t" "d" "c" "hello" (by decide) (by decide) (by decide)

set_option maxHeartbeats 1000000 in
/-- C10: the response `"Tags: ,,"` contains the `"Tags:"` marker followed
only by commas and whitespace, and the returned tags list is empty rather
than `["General"]`. -/
theorem C10_empty_tags :
    containsSub "Tags: ,,".toList "Tags:".toList = true ∧
      (summarize_article_tool "" "" "" (some "Tags: ,,")).tags = [] := by
  constructor
  · decide
  · decide

/-- C7: the summarize stage produces exactly one summary per article, in
order: `summaries[i]` is the summarizer output for `articles[i]` extended
with that article's source name and formatted published date. -/
theorem C7_pairing (oracle : Article → Option String) (articles : List Article) :
    (summarize_node oracle articles).length = articles.length ∧
      ∀ (i : Nat) (a : Article), articles[i]? = some a →
        (summarize_node oracle articles)[i]? = some
          { headline := (summarize_article_tool a.title a.description a.content
              (oracle a)).headline
            summary := (summarize_article_tool a.title a.description a.content
              (oracle a)).summary
            tags := (summarize_article_tool a.title a.description a.content
              (oracle a)).tags
            source := a.source
            date := format_date a.publishedAt } := by
  constructor
  · exact List.length_map _ _
  · intro i a h
    unfold summarize_node
    rw [List.getElem?_map, h]
    rfl

/-- Witness for C7 on a one-article list with an always-raising LLM. -/
theorem C7_pairing_witness :
    ([⟨"t1", "d1", "c1", "s1", "p1", "u1"⟩] : List Article)[0]? =
        some ⟨"t1", "d1", "c1", "s1", "p1", "u1"⟩ ∧
      (summarize_node (fun _ => none) [⟨"t1", "d1", "c1", "s1", "p1", "u1"⟩])[0]? = some
        { headline := (summarize_article_tool "t1" "d1" "c1" none).headline
          summary := (summarize_article_tool "t1" "d1" "c1" none).summary
          tags := (summarize_article_tool "t1" "d1" "c1" none).tags
          source := "s1"
          date := format_date "p1" } :=
  ⟨rfl, (C7_pairing (fun _ => none) [⟨"t1", "d1", "c1", "s1", "p1", "u1"⟩]).2 0 _ rfl⟩

end NewsSummarizer
